import Mathlib

/-!
Verification of the collection-runner core of the GETapi repository.

The development shallowly embeds the TypeScript sources:
  * `replaceVariables` (variable interpolation) from `collectionRunner`,
  * `executeRequest` / `runCollection` (request executor and orchestrator),
  * `runScript` (the isolated-vm script sandbox) from `services/scriptRunner.ts`.

External effects (the JSON built-ins, the axios transport, the isolate's
eval, wall-clock time) are passed in as explicit oracle parameters; all
repository code is translated directly.
-/

/-! ## JavaScript value model

The variable bag is a `Record<string, any>`.  We model the scalar JS
values that can sit in the bag: strings, (integer) numbers, booleans and
null, together with JS truthiness and JS string coercion. -/

inductive JSValue where
  | str (s : String)
  | num (n : Int)
  | bool (b : Bool)
  | null
deriving DecidableEq

/-- JS truthiness of a bag value (`""`, `0`, `false` and `null` are falsy). -/
def jsTruthy : JSValue → Bool
  | .str s => s ≠ ""
  | .num n => n ≠ 0
  | .bool b => b
  | .null => false

/-- JS `String(v)` coercion, as applied by `String.prototype.replace` to the
value returned from a replacer callback. -/
def jsToString : JSValue → String
  | .str s => s
  | .num n => toString n
  | .bool b => cond b "true" "false"
  | .null => "null"

/-- The variable bag `Record<string, any>`, as an association list. -/
def VarBag : Type := List (String × JSValue)

/-! ## Variable interpolation: `replaceVariables`

Source (`collectionRunner`):
```
const replaceVariables = (str, variables) => {
  if (!str) return str;
  return str.replace(/\{\{(\w+)\}\}/g, (match, variableName) => {
    return variables[variableName] || match;
  });
};
```
The regex `/\{\{(\w+)\}\}/g` finds leftmost non-overlapping occurrences of
`\x7b\x7b` word-chars `\x7d\x7d`; on a failed attempt the scan advances one
character.  The replacer returns `variables[name] || match`, so a missing
*or falsy* variable leaves the matched text, a truthy value is coerced to
a string by `replace`. -/

/-- JS regex `\w`: ASCII letters, digits, underscore. -/
def isWordChar (c : Char) : Bool :=
  c.isAlpha || c.isDigit || c = '_'

/-- Attempt to match `\x7b\x7b(\w+)\x7d\x7d` at the head of the character list;
on success return the captured word characters and the remainder after the
match. -/
def matchHead (l : List Char) : Option (List Char × List Char) :=
  match l with
  | c1 :: c2 :: rest =>
    if c1 = '{' ∧ c2 = '{' then
      match rest.dropWhile isWordChar with
      | d1 :: d2 :: tail =>
        if d1 = '}' ∧ d2 = '}' ∧ rest.takeWhile isWordChar ≠ [] then
          some (rest.takeWhile isWordChar, tail)
        else none
      | _ => none
    else none
  | _ => none

/-- The literal matched text `\x7b\x7b` ++ w ++ `\x7d\x7d`. -/
def placeholderText (w : List Char) : List Char :=
  '{' :: '{' :: (w ++ ['}', '}'])

/-- The replacer callback `variables[variableName] || match`, composed with
the string coercion `replace` applies to its result. -/
def replacementFor (vars : VarBag) (w : List Char) : List Char :=
  match List.lookup (String.mk w) vars with
  | some v => if jsTruthy v then (jsToString v).data else placeholderText w
  | none => placeholderText w

/-- Global-replace scan.  Fuel is an upper bound on the number of characters
still to process; every recursive call consumes at least one character, so
any fuel `≥ l.length` computes the full scan (`replaceVarsFuel_congr`). -/
def replaceVarsFuel (vars : VarBag) : Nat → List Char → List Char
  | 0, l => l
  | _ + 1, [] => []
  | fuel + 1, c :: cs =>
    match matchHead (c :: cs) with
    | some (w, tail) => replacementFor vars w ++ replaceVarsFuel vars fuel tail
    | none => c :: replaceVarsFuel vars fuel cs

/-- Model of `replaceVariables(str, variables)` from the source. -/
def replaceVariables (str : String) (vars : VarBag) : String :=
  if str = "" then str
  else String.mk (replaceVarsFuel vars str.data.length str.data)

/-- Whether the regex `\x7b\x7b(\w+)\x7d\x7d` has at least one match in the
character list: some suffix position admits a head match. -/
def containsPlaceholder : List Char → Bool
  | [] => false
  | c :: cs => (matchHead (c :: cs)).isSome || containsPlaceholder cs

/-! ### Interpolation lemmas -/

theorem matchHead_some_length {l : List Char} {w tail : List Char}
    (h : matchHead l = some (w, tail)) : tail.length + 4 ≤ l.length := by
  match l with
  | [] => simp [matchHead] at h
  | [c1] => simp [matchHead] at h
  | c1 :: c2 :: rest =>
    simp only [matchHead] at h
    split at h
    · rename_i hbr
      have hdrop : (rest.dropWhile isWordChar).length ≤ rest.length :=
        (List.dropWhile_sublist isWordChar).length_le
      split at h
      · rename_i d1 d2 tl heq
        split at h
        · injection h with h'
          injection h' with hw ht
          subst ht
          rw [heq] at hdrop
          simp at hdrop
          simp [List.length_cons]
          omega
        · exact absurd h (by simp)
      · exact absurd h (by simp)
    · exact absurd h (by simp)

theorem matchHead_cons_of_ne {c : Char} (hc : c ≠ '{') (cs : List Char) :
    matchHead (c :: cs) = none := by
  match cs with
  | [] => simp [matchHead]
  | c2 :: rest => simp [matchHead, hc]

/-- Fuel congruence: any two sufficient fuels compute the same scan. -/
theorem replaceVarsFuel_congr (vars : VarBag) :
    ∀ f1 : Nat, ∀ l : List Char, ∀ f2 : Nat,
      l.length ≤ f1 → l.length ≤ f2 →
      replaceVarsFuel vars f1 l = replaceVarsFuel vars f2 l := by
  intro f1
  induction f1 with
  | zero =>
    intro l f2 h1 _
    have : l = [] := List.eq_nil_of_length_eq_zero (Nat.le_zero.mp h1)
    subst this
    cases f2 <;> rfl
  | succ f ih =>
    intro l f2 h1 h2
    match l with
    | [] => cases f2 <;> rfl
    | c :: cs =>
      match f2 with
      | 0 => simp at h2
      | f2' + 1 =>
        cases hm : matchHead (c :: cs) with
        | some p =>
          obtain ⟨w, tail⟩ := p
          have hlen := matchHead_some_length hm
          simp only [List.length_cons] at h1 h2 hlen
          have ht1 : tail.length ≤ f := by omega
          have ht2 : tail.length ≤ f2' := by omega
          simp only [replaceVarsFuel, hm]
          rw [ih tail f2' ht1 ht2]
        | none =>
          simp only [List.length_cons] at h1 h2
          simp only [replaceVarsFuel, hm]
          rw [ih cs f2' (by omega) (by omega)]

/-- A placeholder-free character list is scanned to itself. -/
theorem replaceVarsFuel_of_no_placeholder (vars : VarBag) :
    ∀ fuel : Nat, ∀ l : List Char, containsPlaceholder l = false →
      replaceVarsFuel vars fuel l = l := by
  intro fuel
  induction fuel with
  | zero => intro l _; rfl
  | succ f ih =>
    intro l hl
    match l with
    | [] => rfl
    | c :: cs =>
      simp only [containsPlaceholder, Bool.or_eq_false_iff] at hl
      obtain ⟨hm, hcs⟩ := hl
      have hm' : matchHead (c :: cs) = none := by
        cases h : matchHead (c :: cs) with
        | none => rfl
        | some p => rw [h] at hm; simp at hm
      simp only [replaceVarsFuel, hm']
      rw [ih cs hcs]

/-- A prefix containing no opening brace passes through the scan untouched. -/
theorem replaceVarsFuel_append_of_nobrace (vars : VarBag) :
    ∀ p : List Char, (∀ c ∈ p, c ≠ '{') →
      ∀ r : List Char, ∀ fuel : Nat, (p ++ r).length ≤ fuel →
      replaceVarsFuel vars fuel (p ++ r) =
        p ++ replaceVarsFuel vars r.length r := by
  intro p
  induction p with
  | nil =>
    intro _ r fuel hfuel
    simpa using replaceVarsFuel_congr vars fuel r r.length (by simpa using hfuel) le_rfl
  | cons c p' ih =>
    intro hp r fuel hfuel
    have hc : c ≠ '{' := hp c (by simp)
    match fuel with
    | 0 => simp at hfuel
    | f + 1 =>
      simp only [List.cons_append, replaceVarsFuel, List.append_eq,
        matchHead_cons_of_ne hc]
      rw [ih (fun d hd => hp d (by simp [hd])) r f
        (by simp only [List.cons_append, List.length_cons] at hfuel; omega)]

theorem takeWhile_word_append {w : List Char} (hw : ∀ c ∈ w, isWordChar c = true)
    {a : Char} (ha : isWordChar a = false) (t : List Char) :
    ((w ++ a :: t).takeWhile isWordChar = w) ∧
    ((w ++ a :: t).dropWhile isWordChar = a :: t) := by
  induction w with
  | nil =>
    constructor
    · simp [List.takeWhile_cons, ha]
    · simp [List.dropWhile_cons, ha]
  | cons c w' ih =>
    have hc : isWordChar c = true := hw c (by simp)
    obtain ⟨iht, ihd⟩ := ih (fun d hd => hw d (by simp [hd]))
    constructor
    · simp only [List.cons_append, List.takeWhile_cons, hc, if_true, iht]
    · simp only [List.cons_append, List.dropWhile_cons, hc, if_true, ihd]

theorem matchHead_placeholder {w : List Char} (hne : w ≠ [])
    (hw : ∀ c ∈ w, isWordChar c = true) (t : List Char) :
    matchHead ('{' :: '{' :: (w ++ '}' :: '}' :: t)) = some (w, t) := by
  have hbrace : isWordChar '}' = false := by decide
  obtain ⟨htake, hdrop⟩ := takeWhile_word_append hw hbrace ('}' :: t)
  simp only [matchHead, hdrop, htake]
  simp [hne]

/-- Key step: a brace-free prefix, then one placeholder, then an arbitrary
remainder.  The scan keeps the prefix, resolves the placeholder via the
replacer, and continues on the remainder. -/
theorem replaceVarsFuel_occurrence (vars : VarBag)
    {p : List Char} (hp : ∀ c ∈ p, c ≠ '{')
    {w : List Char} (hne : w ≠ []) (hw : ∀ c ∈ w, isWordChar c = true)
    (suf : List Char) :
    replaceVarsFuel vars (p ++ '{' :: '{' :: (w ++ '}' :: '}' :: suf)).length
        (p ++ '{' :: '{' :: (w ++ '}' :: '}' :: suf)) =
      p ++ replacementFor vars w ++
        replaceVarsFuel vars suf.length suf := by
  rw [replaceVarsFuel_append_of_nobrace vars p hp _ _ le_rfl]
  have hlen : ('{' :: '{' :: (w ++ '}' :: '}' :: suf)).length
      = ('{' :: (w ++ '}' :: '}' :: suf)).length + 1 := by simp
  rw [hlen]
  simp only [replaceVarsFuel, matchHead_placeholder hne hw suf]
  rw [replaceVarsFuel_congr vars ('{' :: (w ++ '}' :: '}' :: suf)).length suf
    suf.length (by simp; omega) le_rfl]
  simp [List.append_assoc]

theorem string_ext {a b : String} (h : a.data = b.data) : a = b := by
  cases a; cases b; exact congrArg String.mk h

theorem string_mk_data (s : String) : String.mk s.data = s := by
  cases s; rfl

/-- Evaluation of `replaceVariables` without the (semantically redundant) empty guard. -/
theorem replaceVariables_eq (str : String) (vars : VarBag) :
    replaceVariables str vars =
      String.mk (replaceVarsFuel vars str.data.length str.data) := by
  unfold replaceVariables
  split
  · rename_i h
    subst h
    rfl
  · rfl

/-- Shared characterization: one occurrence of `\x7b\x7bname\x7d\x7d` after a
brace-free prefix is resolved by the replacer callback; the remainder is
scanned independently. -/
theorem replaceVariables_occurrence (vars : VarBag)
    (pre name suf : String)
    (hpre : ∀ c ∈ pre.data, c ≠ '{')
    (hne : name.data ≠ [])
    (hword : ∀ c ∈ name.data, isWordChar c = true) :
    replaceVariables (pre ++ "\x7b\x7b" ++ name ++ "\x7d\x7d" ++ suf) vars =
      pre ++ String.mk (replacementFor vars name.data) ++
        replaceVariables suf vars := by
  apply string_ext
  rw [replaceVariables_eq, replaceVariables_eq]
  have hdata : (pre ++ "\x7b\x7b" ++ name ++ "\x7d\x7d" ++ suf).data
      = pre.data ++ '{' :: '{' :: (name.data ++ '}' :: '}' :: suf.data) := by
    simp [String.data_append, List.append_assoc]
  rw [hdata]
  rw [replaceVarsFuel_occurrence vars hpre hne hword suf.data]
  simp [String.data_append]

theorem placeholder_string (name : String) :
    String.mk (placeholderText name.data) = "\x7b\x7b" ++ name ++ "\x7d\x7d" := by
  apply string_ext
  simp [placeholderText, String.data_append, List.append_assoc]

/-- C8: for every string that contains no `\x7b\x7b...\x7d\x7d` placeholder
pattern and every variable bag, `replaceVariables` returns the string
unchanged: interpolation restricted to placeholder-free strings is the
identity function. -/
theorem replaceVariables_id_of_no_placeholder (s : String) (vars : VarBag)
    (h : containsPlaceholder s.data = false) :
    replaceVariables s vars = s := by
  rw [replaceVariables_eq, replaceVarsFuel_of_no_placeholder vars _ _ h]

theorem replaceVariables_id_witness :
    containsPlaceholder ("plain text, no placeholders" : String).data = false ∧
    replaceVariables "plain text, no placeholders" [("x", JSValue.str "1")]
      = "plain text, no placeholders" :=
  ⟨by decide, replaceVariables_id_of_no_placeholder _ _ (by decide)⟩

/-- C1 (amended): interpolation substitutes an occurrence `\x7b\x7bname\x7d\x7d`
with the variable's string representation exactly when the bag maps `name` to
a *truthy* value; when the identifier is absent from the bag, or maps to a
falsy value, the original placeholder text is left unchanged.  Stated for an
occurrence preceded by a brace-free prefix and followed by an arbitrary
remainder, which is interpolated recursively; the function is total, so no
error or exception is possible. -/
theorem replaceVariables_truthy_gated (vars : VarBag) (pre name suf : String)
    (hpre : ∀ c ∈ pre.data, c ≠ '{')
    (hne : name.data ≠ [])
    (hword : ∀ c ∈ name.data, isWordChar c = true) :
    replaceVariables (pre ++ "\x7b\x7b" ++ name ++ "\x7d\x7d" ++ suf) vars =
      pre ++ (match List.lookup name vars with
        | some v => if jsTruthy v then jsToString v
                    else "\x7b\x7b" ++ name ++ "\x7d\x7d"
        | none => "\x7b\x7b" ++ name ++ "\x7d\x7d") ++
        replaceVariables suf vars := by
  rw [replaceVariables_occurrence vars pre name suf hpre hne hword]
  have hrepl : String.mk (replacementFor vars name.data)
      = (match List.lookup name vars with
        | some v => if jsTruthy v then jsToString v
                    else "\x7b\x7b" ++ name ++ "\x7d\x7d"
        | none => "\x7b\x7b" ++ name ++ "\x7d\x7d") := by
    unfold replacementFor
    rw [string_mk_data name]
    cases h : List.lookup name vars with
    | none => simp [placeholder_string name]
    | some v =>
      by_cases ht : jsTruthy v = true
      · simp [ht, string_mk_data]
      · simp [ht, placeholder_string name]
  rw [hrepl]

theorem replaceVariables_truthy_gated_witness :
    (∀ c ∈ ("api/" : String).data, c ≠ '{') ∧
    ("token" : String).data ≠ [] ∧
    (∀ c ∈ ("token" : String).data, isWordChar c = true) ∧
    replaceVariables ("api/" ++ "\x7b\x7b" ++ "token" ++ "\x7d\x7d" ++ "/v1")
        [("token", JSValue.str "abc")] =
      "api/" ++ (match List.lookup "token" [("token", JSValue.str "abc")] with
        | some v => if jsTruthy v then jsToString v
                    else "\x7b\x7b" ++ "token" ++ "\x7d\x7d"
        | none => "\x7b\x7b" ++ "token" ++ "\x7d\x7d") ++
        replaceVariables "/v1" [("token", JSValue.str "abc")] :=
  ⟨by decide, by decide, by decide,
    replaceVariables_truthy_gated _ _ _ _ (by decide) (by decide) (by decide)⟩

/-- C1 counterexample: `x` is a key of the bag with value `0`, whose string
representation is `"0"`, yet interpolation leaves the placeholder text
unchanged — substitution is gated on truthiness, not key membership. -/
theorem replaceVariables_falsy_counterexample :
    List.lookup "x" ([("x", JSValue.num 0)] : VarBag) = some (JSValue.num 0) ∧
    jsToString (JSValue.num 0) = "0" ∧
    replaceVariables "\x7b\x7bx\x7d\x7d" [("x", JSValue.num 0)] = "\x7b\x7bx\x7d\x7d" ∧
    ("\x7b\x7bx\x7d\x7d" : String) ≠ "0" :=
  ⟨by decide, by decide, by decide, by decide⟩

/-- C10: a placeholder whose name is bound in the bag to a falsy value
(`0`, `false`, `""`, `null`) is left as the literal placeholder text,
exactly as if the key were absent, because the replacer callback
`variables[name] || match` is gated on the value's truthiness. -/
theorem replaceVariables_falsy_placeholder (vars : VarBag)
    (pre name suf : String) (v : JSValue)
    (hpre : ∀ c ∈ pre.data, c ≠ '{')
    (hne : name.data ≠ [])
    (hword : ∀ c ∈ name.data, isWordChar c = true)
    (hv : List.lookup name vars = some v)
    (hfalsy : jsTruthy v = false) :
    replaceVariables (pre ++ "\x7b\x7b" ++ name ++ "\x7d\x7d" ++ suf) vars =
      pre ++ "\x7b\x7b" ++ name ++ "\x7d\x7d" ++ replaceVariables suf vars := by
  rw [replaceVariables_occurrence vars pre name suf hpre hne hword]
  have hrepl : String.mk (replacementFor vars name.data)
      = "\x7b\x7b" ++ name ++ "\x7d\x7d" := by
    unfold replacementFor
    rw [string_mk_data name, hv]
    simp [hfalsy, placeholder_string name]
  rw [hrepl]
  simp [String.append_assoc]

theorem replaceVariables_falsy_placeholder_witness :
    (∀ c ∈ ("q=" : String).data, c ≠ '{') ∧
    ("flag" : String).data ≠ [] ∧
    (∀ c ∈ ("flag" : String).data, isWordChar c = true) ∧
    List.lookup "flag" ([("flag", JSValue.bool false)] : VarBag)
      = some (JSValue.bool false) ∧
    jsTruthy (JSValue.bool false) = false ∧
    replaceVariables ("q=" ++ "\x7b\x7b" ++ "flag" ++ "\x7d\x7d" ++ "&z=1")
        [("flag", JSValue.bool false)] =
      "q=" ++ "\x7b\x7b" ++ "flag" ++ "\x7d\x7d" ++
        replaceVariables "&z=1" [("flag", JSValue.bool false)] :=
  ⟨by decide, by decide, by decide, by decide, by decide,
    replaceVariables_falsy_placeholder [("flag", JSValue.bool false)]
      "q=" "flag" "&z=1" (JSValue.bool false)
      (by decide) (by decide) (by decide) (by decide) (by decide)⟩

/-! ## Script sandbox: `runScript` (`src/services/scriptRunner.ts`)

Source:
```
export const runScript = async (script, variables) => {
  if (!script) return { variables };
  const isolate = new ivm.Isolate({ memoryLimit: 128 });
  const context = await isolate.createContext();
  const jail = context.global;
  await jail.set('pm', new ivm.Reference(variables));
  try {
    const code = ` ... ${script} ... return pm; `;
    const result = await context.eval(code, { timeout: 1000 });
    const newVariables = await result.copy();
    return { variables: newVariables };
  } catch (err) {
    return { variables, error: err.message };
  } finally {
    if (!isolate.isDisposed) isolate.dispose();
  }
};
```
The isolate's evaluation is external (isolated-vm / V8); it is modelled as
an oracle receiving the full sandbox configuration the code passes down
(memory limit 128, binding name `pm` bound to the bag, the composed code
text, timeout 1000) and returning either the produced bag or the caught
error's message.  The isolate lifecycle is recorded as an event list. -/

structure ScriptRunResult where
  «variables» : VarBag
  error : Option String

/-- One invocation's sandbox configuration: everything `runScript` hands to
the isolated evaluation. -/
structure SandboxCall where
  memoryLimit : Nat
  binding : String
  boundValue : VarBag
  code : String
  timeout : Nat

inductive SandboxEvent where
  | created
  | disposed
deriving DecidableEq

/-- The template literal composing the evaluated code: the user script is
spliced verbatim between a leading comment and a trailing top-level
`return pm;` statement. -/
def buildCode (script : String) : String :=
  "\n      // The user script will run here\n      " ++ script ++
    "\n      // Return the modified 'pm' object\n      return pm;\n    "

/-- Model of `runScript(script, variables)`. The oracle `ev` is the isolated
evaluation (script exceptions, syntax errors, memory-limit violations and
timeouts all surface as `Except.error` with the error's message, mirroring
the `catch` clause); the event list records the isolate lifecycle of this
invocation. -/
def runScript (ev : SandboxCall → Except String VarBag)
    (script : String) (vars : VarBag) : ScriptRunResult × List SandboxEvent :=
  if script = "" then ({ «variables» := vars, error := none }, [])
  else
    match ev { memoryLimit := 128, binding := "pm", boundValue := vars,
               code := buildCode script, timeout := 1000 } with
    | .ok newVariables =>
        ({ «variables» := newVariables, error := none },
         [SandboxEvent.created, SandboxEvent.disposed])
    | .error m =>
        ({ «variables» := vars, error := some m },
         [SandboxEvent.created, SandboxEvent.disposed])

/-- C9: `runScript` called with an empty script returns the input bag
unchanged and no error field (and touches no isolate). -/
theorem runScript_empty_script (ev : SandboxCall → Except String VarBag)
    (vars : VarBag) :
    runScript ev "" vars = ({ «variables» := vars, error := none }, []) := rfl

/-- C5: if the isolated evaluation of a non-empty script fails for any
reason (exception, syntax error, memory-limit violation, timeout), the
result carries the original input bag and the failure's message, the error
does not escape (`runScript` is total), the isolate of the invocation is
disposed, and a subsequent invocation whose evaluation succeeds still
succeeds — `runScript` keeps no state across calls. -/
theorem runScript_failure_containment
    (ev : SandboxCall → Except String VarBag) (script : String)
    (vars : VarBag) (m : String)
    (hs : script ≠ "")
    (he : ev { memoryLimit := 128, binding := "pm", boundValue := vars,
               code := buildCode script, timeout := 1000 } = .error m) :
    (runScript ev script vars).1 = { «variables» := vars, error := some m } ∧
    SandboxEvent.disposed ∈ (runScript ev script vars).2 ∧
    (∀ ev2 script2 vars2 newBag, script2 ≠ "" →
      ev2 { memoryLimit := 128, binding := "pm", boundValue := vars2,
            code := buildCode script2, timeout := 1000 } = .ok newBag →
      (runScript ev2 script2 vars2).1 = { «variables» := newBag, error := none }) := by
  refine ⟨?_, ?_, ?_⟩
  · simp [runScript, hs, he]
  · simp [runScript, hs, he]
  · intro ev2 script2 vars2 newBag hs2 he2
    simp [runScript, hs2, he2]

theorem runScript_failure_containment_witness :
    ("throw new Error('boom');" : String) ≠ "" ∧
    (fun _ : SandboxCall => (Except.error "boom" : Except String VarBag))
      { memoryLimit := 128, binding := "pm", boundValue := [("a", JSValue.num 1)],
        code := buildCode "throw new Error('boom');", timeout := 1000 }
      = Except.error "boom" ∧
    (runScript (fun _ => Except.error "boom") "throw new Error('boom');"
        [("a", JSValue.num 1)]).1
      = { «variables» := [("a", JSValue.num 1)], error := some "boom" } :=
  ⟨by decide, rfl,
    (runScript_failure_containment (fun _ => Except.error "boom")
      "throw new Error('boom');" [("a", JSValue.num 1)] "boom"
      (by decide) rfl).1⟩

/-- C6 evaluation at the failing input: the code handed to the isolate for
the script `pm.x = 1;` is the script spliced into a *top-level* program
whose last statement is `return pm;` — there is no enclosing function
wrapper in the composed text. -/
theorem buildCode_top_level_return :
    buildCode "pm.x = 1;" =
      "\n      // The user script will run here\n      pm.x = 1;\n      // Return the modified 'pm' object\n      return pm;\n    " := rfl

/-! ## Request executor and run orchestrator (`collectionRunner`)

`executeRequest` interpolates the URL, builds the axios config (parsing the
interpolated JSON of headers/body/params, each optional), issues the call
with `validateStatus: () => true`, and folds the try/catch outcome into a
`RequestResult`.  `runCollection` drives a batch sequentially (with the
truthy-gated inter-request delay, applied after every request including the
last) or in parallel via `Promise.all`, then aggregates the summary.

The JSON built-ins (`stringify`/`parse`), the network transport and the
clock are oracles; the JSON document type `J` and the response payload type
`R` are parameters.  The transport oracle is indexed by call position to
allow distinct outcomes for identical configs. -/

inductive ExecutionMode where
  | sequential
  | parallel
deriving DecidableEq

inductive EnvTag where
  | development
  | staging
  | production
deriving DecidableEq

structure RunOptions where
  executionMode : ExecutionMode
  delayBetweenRequests : Option Nat
  environment : EnvTag
  «variables» : VarBag

structure RequestData (J : Type) where
  id : Nat
  name : String
  method : String
  url : String
  headers : Option J
  body : Option J
  params : Option J

structure HttpResponse (R : Type) where
  status : Nat
  statusText : String
  data : R
  headers : R

structure AxiosConfig (J : Type) where
  method : String
  url : String
  headers : Option J
  data : Option J
  params : Option J
  validateStatus : Nat → Bool

structure ResponseSnapshot (R : Type) where
  status : Nat
  statusText : String
  data : R
  headers : R

inductive ReqStatus where
  | completed
  | failed
deriving DecidableEq

structure RequestResult (R : Type) where
  requestId : Nat
  name : String
  method : String
  url : String
  status : ReqStatus
  response : Option (ResponseSnapshot R)
  error : Option String
  duration : Nat
  timestamp : String

/-- Model of `field ? JSON.parse(replaceVariables(JSON.stringify(field), variables)) : undefined`. -/
def interpOpt {J : Type} (stringify : J → String)
    (parse : String → Except String J) (vars : VarBag) :
    Option J → Except String (Option J)
  | none => Except.ok none
  | some j => (parse (replaceVariables (stringify j) vars)).map some

/-- The axios config object built inside the `try` block; a JSON parse
failure on any of the three optional fields aborts with that error. -/
def buildConfig {J : Type} (stringify : J → String)
    (parse : String → Except String J)
    (request : RequestData J) (vars : VarBag) (url : String) :
    Except String (AxiosConfig J) := do
  let headers ← interpOpt stringify parse vars request.headers
  let data ← interpOpt stringify parse vars request.body
  let params ← interpOpt stringify parse vars request.params
  Except.ok { method := request.method, url := url, headers := headers,
              data := data, params := params, validateStatus := fun _ => true }

/-- axios library contract: a transport-level outcome, with the config's
`validateStatus` policy deciding whether a delivered HTTP response resolves
or rejects. -/
def axiosSettle {J R : Type}
    (transport : AxiosConfig J → Except String (HttpResponse R))
    (config : AxiosConfig J) : Except String (HttpResponse R) :=
  match transport config with
  | .ok resp =>
      if config.validateStatus resp.status then .ok resp
      else .error ("Request failed with status code " ++ toString resp.status)
  | .error e => .error e

/-- Fold the try/catch outcome into the `RequestResult` record. -/
def settle {R : Type} (requestId : Nat) (name method url timestamp : String)
    (elapsed : Nat) : Except String (HttpResponse R) → RequestResult R
  | .ok resp =>
      { requestId := requestId, name := name, method := method, url := url,
        status := ReqStatus.completed,
        response := some { status := resp.status, statusText := resp.statusText,
                           data := resp.data, headers := resp.headers },
        error := none, duration := elapsed, timestamp := timestamp }
  | .error m =>
      { requestId := requestId, name := name, method := method, url := url,
        status := ReqStatus.failed, response := none, error := some m,
        duration := elapsed, timestamp := timestamp }

/-- Model of `executeRequest(request, variables)`: `elapsed` is the measured wall
time of this call, `timestamp` its ISO start time. -/
def executeRequest {J R : Type} (stringify : J → String)
    (parse : String → Except String J)
    (transport : AxiosConfig J → Except String (HttpResponse R))
    (elapsed : Nat) (timestamp : String)
    (request : RequestData J) (vars : VarBag) : RequestResult R :=
  settle request.id request.name request.method
    (replaceVariables request.url vars) timestamp elapsed
    (match buildConfig stringify parse request vars
        (replaceVariables request.url vars) with
     | .ok config => axiosSettle transport config
     | .error m => .error m)

/-- The external world of one `runCollection` invocation. -/
structure RunOracles (J R : Type) where
  stringify : J → String
  parse : String → Except String J
  transport : Nat → AxiosConfig J → Except String (HttpResponse R)
  elapsed : Nat → Nat
  timestamp : Nat → String
  runId : String

def execAt {J R : Type} (o : RunOracles J R) (vars : VarBag) (i : Nat)
    (request : RequestData J) : RequestResult R :=
  executeRequest o.stringify o.parse (o.transport i) (o.elapsed i)
    (o.timestamp i) request vars

/-- Per-request results in input order: the sequential loop pushes each
awaited result in turn, and `Promise.all` resolves positionally, so both
modes collect the same positional list. -/
def collectResults {J R : Type} (o : RunOracles J R) (vars : VarBag) :
    Nat → List (RequestData J) → List (RequestResult R)
  | _, [] => []
  | i, request :: rest =>
      execAt o vars i request :: collectResults o vars (i + 1) rest

inductive RunEvent where
  | exec (i : Nat)
  | delay (d : Nat)
deriving DecidableEq

/-- JS truthiness gate `if (options.delayBetweenRequests) await ...`:
an absent or zero delay contributes nothing. -/
def delayAmount : Option Nat → Nat
  | none => 0
  | some d => if d = 0 then 0 else d

def delayEvents : Option Nat → List RunEvent
  | none => []
  | some d => if d = 0 then [] else [RunEvent.delay d]

/-- Wall-clock of the sequential loop: each request is awaited, then the
truthy-gated delay is awaited — after every request, including the last. -/
def seqDuration {J R : Type} (o : RunOracles J R) (delay : Option Nat) :
    Nat → List (RequestData J) → Nat
  | _, [] => 0
  | i, _ :: rest => o.elapsed i + delayAmount delay + seqDuration o delay (i + 1) rest

/-- Wall-clock of `Promise.all`: the join completes with the slowest call. -/
def parDuration {J R : Type} (o : RunOracles J R) :
    Nat → List (RequestData J) → Nat
  | _, [] => 0
  | i, _ :: rest => max (o.elapsed i) (parDuration o (i + 1) rest)

/-- Scheduling trace of the sequential loop. -/
def seqTrace {J : Type} (delay : Option Nat) :
    Nat → List (RequestData J) → List RunEvent
  | _, [] => []
  | i, _ :: rest => (RunEvent.exec i :: delayEvents delay) ++ seqTrace delay (i + 1) rest

structure RunSummary where
  total : Nat
  completed : Nat
  failed : Nat
  totalDuration : Nat

inductive RunStatus where
  | running
  | completed
  | failed
deriving DecidableEq

structure RunOutput (R : Type) where
  runId : String
  status : RunStatus
  results : List (RequestResult R)
  summary : RunSummary

/-- Model of `runCollection(requests, options)`. -/
def runCollection {J R : Type} (o : RunOracles J R)
    (requests : List (RequestData J)) (options : RunOptions) : RunOutput R :=
  let results := collectResults o options.«variables» 0 requests
  let totalDuration :=
    match options.executionMode with
    | ExecutionMode.sequential => seqDuration o options.delayBetweenRequests 0 requests
    | ExecutionMode.parallel => parDuration o 0 requests
  let summary : RunSummary :=
    { total := requests.length,
      completed := (results.filter fun r => decide (r.status = ReqStatus.completed)).length,
      failed := (results.filter fun r => decide (r.status = ReqStatus.failed)).length,
      totalDuration := totalDuration }
  { runId := o.runId,
    status := if summary.failed > 0 then RunStatus.failed else RunStatus.completed,
    results := results,
    summary := summary }

/-- Scheduling trace of one `runCollection` invocation. -/
def runTrace {J : Type} (requests : List (RequestData J))
    (options : RunOptions) : List RunEvent :=
  match options.executionMode with
  | ExecutionMode.sequential => seqTrace options.delayBetweenRequests 0 requests
  | ExecutionMode.parallel => (List.range requests.length).map RunEvent.exec

/-! ### Executor and orchestrator lemmas -/

theorem settle_requestId {R : Type} (requestId : Nat)
    (name method url timestamp : String) (elapsed : Nat)
    (e : Except String (HttpResponse R)) :
    (settle requestId name method url timestamp elapsed e).requestId = requestId := by
  cases e <;> rfl

theorem settle_duration {R : Type} (requestId : Nat)
    (name method url timestamp : String) (elapsed : Nat)
    (e : Except String (HttpResponse R)) :
    (settle requestId name method url timestamp elapsed e).duration = elapsed := by
  cases e <;> rfl

theorem settle_status_dichotomy {R : Type} (requestId : Nat)
    (name method url timestamp : String) (elapsed : Nat)
    (e : Except String (HttpResponse R)) :
    (settle requestId name method url timestamp elapsed e).status = ReqStatus.completed ∨
    (settle requestId name method url timestamp elapsed e).status = ReqStatus.failed := by
  cases e
  · right; rfl
  · left; rfl

theorem executeRequest_requestId {J R : Type} (stringify : J → String)
    (parse : String → Except String J)
    (transport : AxiosConfig J → Except String (HttpResponse R))
    (elapsed : Nat) (timestamp : String)
    (request : RequestData J) (vars : VarBag) :
    (executeRequest stringify parse transport elapsed timestamp request vars).requestId
      = request.id := by
  unfold executeRequest
  exact settle_requestId _ _ _ _ _ _ _

theorem executeRequest_duration {J R : Type} (stringify : J → String)
    (parse : String → Except String J)
    (transport : AxiosConfig J → Except String (HttpResponse R))
    (elapsed : Nat) (timestamp : String)
    (request : RequestData J) (vars : VarBag) :
    (executeRequest stringify parse transport elapsed timestamp request vars).duration
      = elapsed := by
  unfold executeRequest
  exact settle_duration _ _ _ _ _ _ _

theorem buildConfig_validateStatus {J : Type} {stringify : J → String}
    {parse : String → Except String J} {request : RequestData J}
    {vars : VarBag} {url : String} {config : AxiosConfig J}
    (h : buildConfig stringify parse request vars url = Except.ok config) :
    config.validateStatus = fun _ => true := by
  unfold buildConfig at h
  cases h1 : interpOpt stringify parse vars request.headers with
  | error e => rw [h1] at h; simp [Bind.bind, Except.bind] at h
  | ok hv =>
    cases h2 : interpOpt stringify parse vars request.body with
    | error e => rw [h1, h2] at h; simp [Bind.bind, Except.bind] at h
    | ok dv =>
      cases h3 : interpOpt stringify parse vars request.params with
      | error e => rw [h1, h2, h3] at h; simp [Bind.bind, Except.bind] at h
      | ok pv =>
        rw [h1, h2, h3] at h
        simp only [Bind.bind, Except.bind] at h
        injection h with h'
        rw [← h']

theorem collectResults_length {J R : Type} (o : RunOracles J R) (vars : VarBag) :
    ∀ i : Nat, ∀ requests : List (RequestData J),
      (collectResults o vars i requests).length = requests.length := by
  intro i requests
  induction requests generalizing i with
  | nil => rfl
  | cons request rest ih => simp [collectResults, ih]

theorem filter_status_split {R : Type} (l : List (RequestResult R)) :
    (l.filter fun r => decide (r.status = ReqStatus.completed)).length +
      (l.filter fun r => decide (r.status = ReqStatus.failed)).length = l.length := by
  induction l with
  | nil => rfl
  | cons r rest ih =>
    cases hst : r.status <;> simp [List.filter_cons, hst] <;> omega

/-- C2: `executeRequest` is a total function of the transport/JSON outcomes
(no exception escapes its boundary), and
(a) its status is always `completed` or `failed`;
(b) whenever the transport delivers a response — with *any* HTTP status
code, 4xx/5xx included, since the config carries `validateStatus: () => true`
— the result is `completed` and carries the full response snapshot;
(c) when building the config fails (interpolation produced malformed JSON
for headers/body/params), the result is `failed`, carries that failure's
message, and has no response snapshot;
(d) when the transport fails (DNS, timeout, connection refused), the result
is `failed`, carries the transport's message, and has no snapshot. -/
theorem executeRequest_boundary {J R : Type} (stringify : J → String)
    (parse : String → Except String J)
    (transport : AxiosConfig J → Except String (HttpResponse R))
    (elapsed : Nat) (timestamp : String)
    (request : RequestData J) (vars : VarBag) :
    ((executeRequest stringify parse transport elapsed timestamp request vars).status
        = ReqStatus.completed ∨
      (executeRequest stringify parse transport elapsed timestamp request vars).status
        = ReqStatus.failed) ∧
    (∀ config resp,
      buildConfig stringify parse request vars (replaceVariables request.url vars)
          = Except.ok config →
      transport config = Except.ok resp →
      executeRequest stringify parse transport elapsed timestamp request vars =
        { requestId := request.id, name := request.name, method := request.method,
          url := replaceVariables request.url vars, status := ReqStatus.completed,
          response := some { status := resp.status, statusText := resp.statusText,
                             data := resp.data, headers := resp.headers },
          error := none, duration := elapsed, timestamp := timestamp }) ∧
    (∀ m,
      buildConfig stringify parse request vars (replaceVariables request.url vars)
          = Except.error m →
      executeRequest stringify parse transport elapsed timestamp request vars =
        { requestId := request.id, name := request.name, method := request.method,
          url := replaceVariables request.url vars, status := ReqStatus.failed,
          response := none, error := some m, duration := elapsed,
          timestamp := timestamp }) ∧
    (∀ config m,
      buildConfig stringify parse request vars (replaceVariables request.url vars)
          = Except.ok config →
      transport config = Except.error m →
      executeRequest stringify parse transport elapsed timestamp request vars =
        { requestId := request.id, name := request.name, method := request.method,
          url := replaceVariables request.url vars, status := ReqStatus.failed,
          response := none, error := some m, duration := elapsed,
          timestamp := timestamp }) := by
  refine ⟨?_, ?_, ?_, ?_⟩
  · unfold executeRequest
    exact settle_status_dichotomy _ _ _ _ _ _ _
  · intro config resp hb ht
    unfold executeRequest
    rw [hb]
    simp only [axiosSettle, ht, buildConfig_validateStatus hb, if_true]
    rfl
  · intro m hb
    unfold executeRequest
    rw [hb]
    rfl
  · intro config m hb ht
    unfold executeRequest
    rw [hb]
    simp only [axiosSettle, ht]
    rfl

def wStringify : Unit → String := fun _ => "null"

def wParse : String → Except String Unit := fun _ => Except.ok ()

def wTransport404 : AxiosConfig Unit → Except String (HttpResponse Unit) :=
  fun _ => Except.ok { status := 404, statusText := "Not Found", data := (), headers := () }

def wRequest : RequestData Unit :=
  { id := 7, name := "get-user", method := "GET", url := "u",
    headers := some (), body := none, params := none }

def wConfig : AxiosConfig Unit :=
  { method := "GET", url := "u", headers := some (), data := none,
    params := none, validateStatus := fun _ => true }

def wResp : HttpResponse Unit :=
  { status := 404, statusText := "Not Found", data := (), headers := () }

theorem executeRequest_boundary_witness :
    buildConfig wStringify wParse wRequest [] (replaceVariables "u" [])
      = Except.ok wConfig ∧
    wTransport404 wConfig = Except.ok wResp ∧
    executeRequest wStringify wParse wTransport404 12 "2024-01-01T00:00:00Z"
        wRequest [] =
      { requestId := 7, name := "get-user", method := "GET", url := "u",
        status := ReqStatus.completed,
        response := some { status := 404, statusText := "Not Found",
                           data := (), headers := () },
        error := none, duration := 12, timestamp := "2024-01-01T00:00:00Z" } :=
  ⟨rfl, rfl,
    (executeRequest_boundary wStringify wParse wTransport404 12
      "2024-01-01T00:00:00Z" wRequest []).2.1 wConfig wResp rfl rfl⟩

/-- C3: for every template list and options (either execution mode, any
per-request outcomes), the run output covers every input template:
`summary.total = N = length results`, `completed + failed = total`, and the
overall status is `failed` exactly when `summary.failed > 0`. -/
theorem runCollection_summary_invariants {J R : Type} (o : RunOracles J R)
    (requests : List (RequestData J)) (options : RunOptions) :
    (runCollection o requests options).summary.total = requests.length ∧
    (runCollection o requests options).results.length = requests.length ∧
    (runCollection o requests options).summary.completed
        + (runCollection o requests options).summary.failed
      = (runCollection o requests options).summary.total ∧
    ((runCollection o requests options).status = RunStatus.failed ↔
      (runCollection o requests options).summary.failed > 0) := by
  refine ⟨rfl, ?_, ?_, ?_⟩
  · simp [runCollection, collectResults_length]
  · simp [runCollection, filter_status_split, collectResults_length]
  · by_cases h : 0 < ((collectResults o options.«variables» 0 requests).filter
        fun r => decide (r.status = ReqStatus.failed)).length
    · simp [runCollection, h]
    · simp [runCollection, h]

/-- C4: the results sequence of `runCollection` is in template input order
in both execution modes (`Promise.all` joins positionally; the sequential
loop pushes in order): for every index, the result's `requestId` is the
template's `id` at the same index. -/
theorem runCollection_order {J R : Type} (o : RunOracles J R)
    (requests : List (RequestData J)) (options : RunOptions) (i : Nat) :
    ((runCollection o requests options).results[i]?.map fun r => r.requestId)
      = (requests[i]?.map fun request => request.id) := by
  show ((collectResults o options.«variables» 0 requests)[i]?.map
    fun r => r.requestId) = _
  have key : ∀ (start n : Nat) (l : List (RequestData J)),
      ((collectResults o options.«variables» start l)[n]?.map fun r => r.requestId)
        = (l[n]?.map fun request => request.id) := by
    intro start n l
    induction l generalizing start n with
    | nil => rfl
    | cons request rest ih =>
      cases n with
      | zero => simp [collectResults, execAt, executeRequest_requestId]
      | succ n' => simp [collectResults, ih]
  exact key 0 i requests

theorem seqDuration_eq {J R : Type} (o : RunOracles J R) (vars : VarBag)
    (d : Nat) (hd : d ≠ 0) :
    ∀ (i : Nat) (requests : List (RequestData J)),
      seqDuration o (some d) i requests
        = ((collectResults o vars i requests).map fun r => r.duration).sum
          + requests.length * d := by
  intro i requests
  induction requests generalizing i with
  | nil => simp [seqDuration, collectResults]
  | cons request rest ih =>
    simp only [seqDuration, collectResults, delayAmount, if_neg hd,
      List.map_cons, List.sum_cons, List.length_cons, execAt,
      executeRequest_duration, ih (i + 1)]
    ring

theorem seqTrace_eq {J : Type} (d : Nat) (hd : d ≠ 0) :
    ∀ (i : Nat) (requests : List (RequestData J)),
      seqTrace (some d) i requests
        = (List.range' i requests.length).flatMap
            fun k => [RunEvent.exec k, RunEvent.delay d] := by
  intro i requests
  induction requests generalizing i with
  | nil => simp [seqTrace]
  | cons request rest ih =>
    simp [seqTrace, delayEvents, hd, List.range'_succ, ih (i + 1)]

/-- C7: in sequential mode with a non-zero delay `d`, the schedule is
strictly serialized in input order and performs the delay after every
request *including the last* (`N` delays in total), so the batch's
`totalDuration` equals the sum of the individual durations plus `N * d`;
in particular, for 3 templates with `d = 100` it is at least that sum
plus `2 * 100`. -/
theorem runCollection_sequential_delay {J R : Type} (o : RunOracles J R)
    (requests : List (RequestData J)) (options : RunOptions) (d : Nat)
    (hmode : options.executionMode = ExecutionMode.sequential)
    (hdelay : options.delayBetweenRequests = some d)
    (hd : d ≠ 0) :
    runTrace requests options
      = (List.range requests.length).flatMap
          (fun i => [RunEvent.exec i, RunEvent.delay d]) ∧
    (runCollection o requests options).summary.totalDuration
      = ((runCollection o requests options).results.map fun r => r.duration).sum
        + requests.length * d ∧
    (requests.length = 3 → d = 100 →
      (runCollection o requests options).summary.totalDuration ≥
        ((runCollection o requests options).results.map fun r => r.duration).sum
          + 2 * 100) := by
  have hdur : (runCollection o requests options).summary.totalDuration
      = ((runCollection o requests options).results.map fun r => r.duration).sum
        + requests.length * d := by
    show (match options.executionMode with
      | ExecutionMode.sequential => seqDuration o options.delayBetweenRequests 0 requests
      | ExecutionMode.parallel => parDuration o 0 requests) = _
    rw [hmode, hdelay]
    exact seqDuration_eq o options.«variables» d hd 0 requests
  refine ⟨?_, hdur, ?_⟩
  · show (match options.executionMode with
      | ExecutionMode.sequential => seqTrace options.delayBetweenRequests 0 requests
      | ExecutionMode.parallel => (List.range requests.length).map RunEvent.exec) = _
    rw [hmode, hdelay, List.range_eq_range']
    exact seqTrace_eq d hd 0 requests
  · intro h3 h100
    rw [hdur, h3, h100]
    omega

def wOraclesSeq : RunOracles Unit Unit :=
  { stringify := fun _ => "null", parse := fun _ => Except.ok (),
    transport := fun _ _ =>
      Except.ok { status := 200, statusText := "OK", data := (), headers := () },
    elapsed := fun _ => 5, timestamp := fun _ => "2024-01-01T00:00:00Z",
    runId := "run-1" }

def wTemplate (n : Nat) : RequestData Unit :=
  { id := n, name := "r", method := "GET", url := "u",
    headers := none, body := none, params := none }

def wSeqOptions : RunOptions :=
  { executionMode := ExecutionMode.sequential, delayBetweenRequests := some 100,
    environment := EnvTag.development, «variables» := [] }

theorem runCollection_sequential_delay_witness :
    wSeqOptions.executionMode = ExecutionMode.sequential ∧
    wSeqOptions.delayBetweenRequests = some 100 ∧
    (100 : Nat) ≠ 0 ∧
    runTrace [wTemplate 1, wTemplate 2, wTemplate 3] wSeqOptions
      = [RunEvent.exec 0, RunEvent.delay 100, RunEvent.exec 1, RunEvent.delay 100,
         RunEvent.exec 2, RunEvent.delay 100] ∧
    (runCollection wOraclesSeq [wTemplate 1, wTemplate 2, wTemplate 3]
        wSeqOptions).summary.totalDuration = 315 :=
  ⟨rfl, rfl, by decide,
    ((runCollection_sequential_delay wOraclesSeq
      [wTemplate 1, wTemplate 2, wTemplate 3] wSeqOptions 100
      rfl rfl (by decide)).1).trans (by decide),
    ((runCollection_sequential_delay wOraclesSeq
      [wTemplate 1, wTemplate 2, wTemplate 3] wSeqOptions 100
      rfl rfl (by decide)).2.1).trans (by decide)⟩
